import Mathlib

set_option maxHeartbeats 1000000

/- Verification development for the TicketClassifierAgent repository.
   Embedded sources:
   - src/main.py: customer-info extraction, ticket persistence, input selection;
   - src/display/table_display.py: colors, sentiment formatting, truncation,
     the recency query and the table-row highlighting.
   Python strings are modelled as `List Char` (with `String` wrappers at the
   module boundaries); Python floats are modelled as exact rationals. -/

/- ### Character classes of the email pattern in extract_customer_info
   The pattern in src/main.py line 119 is
     \b[A-Za-z0-9._%+-]+@[A-Za-z0-9.-]+\.[A-Z|a-z]{2,}\b
   over ASCII input. -/

/-- ASCII word characters: the \w class that the \b assertions test. -/
def isWordChar (c : Char) : Bool := c.isAlphanum || c = '_'

/-- The local-part class [A-Za-z0-9._%+-]. -/
def isLocalChar (c : Char) : Bool :=
  c.isAlphanum || c = '.' || c = '_' || c = '%' || c = '+' || c = '-'

/-- The domain class [A-Za-z0-9.-]. -/
def isDomainChar (c : Char) : Bool := c.isAlphanum || c = '.' || c = '-'

/-- The top-level-domain class [A-Z|a-z]: letters and the literal bar. -/
def isTldChar (c : Char) : Bool := c.isAlpha || c = '|'

/-- Word-ness of an optional character; outside the text counts as non-word. -/
def isWordOpt : Option Char → Bool
  | none => false
  | some c => isWordChar c

/-- The \b assertion between two adjacent (optional) characters. -/
def boundary2 (a b : Option Char) : Bool := isWordOpt a != isWordOpt b

/- ### The backtracking matcher for the email pattern -/

/-- Greedy search for the [A-Z|a-z]{2,}\b tail. `rev` is the reversed run of
    TLD characters still under consideration and `nxt` is the character that
    follows it; the longest admissible tail is tried first, exactly as the
    regex engine gives back characters from a greedy {2,} repetition. -/
def tldGoRev : List Char → Option Char → Option (List Char)
  | [], _ => none
  | c :: rev, nxt =>
    if 1 ≤ rev.length && boundary2 (some c) nxt then some ((c :: rev).reverse)
    else tldGoRev rev (some c)

/-- Match [A-Z|a-z]{2,}\b at the front of `after`, returning the matched tail. -/
def tldSearch (after : List Char) : Option (List Char) :=
  tldGoRev (after.takeWhile isTldChar).reverse
    ((after.drop (after.takeWhile isTldChar).length).head?)

/-- All splits of `l` as `pre ++ [dot] ++ post`, ordered with the rightmost
    dot first — the order in which a greedy [A-Za-z0-9.-]+ gives characters
    back when looking for the \. that follows it. -/
def dotSplits : List Char → List (List Char × List Char)
  | [] => []
  | c :: cs =>
    (dotSplits cs).map (fun pr => (c :: pr.1, pr.2)) ++
      (if c = '.' then [([], cs)] else [])

/-- Match [A-Za-z0-9.-]+\.[A-Z|a-z]{2,}\b at the front of `rest2` (the text
    after the @), returning the matched domain part. -/
def domSearch (rest2 : List Char) : Option (List Char) :=
  let drun := rest2.takeWhile isDomainChar
  let u0 := rest2.drop drun.length
  List.findSome?
    (fun pr =>
      if pr.1 = [] then none
      else (tldSearch (pr.2 ++ u0)).map (fun t => pr.1 ++ '.' :: t))
    (dotSplits drun)

/-- Try to match the whole email pattern anchored at the front of `s`, where
    `prev` is the character just before `s` in the full text (for \b). -/
def matchAt (prev : Option Char) (s : List Char) : Option (List Char) :=
  if boundary2 prev s.head? then
    let lrun := s.takeWhile isLocalChar
    if lrun = [] then none
    else
      match s.drop lrun.length with
      | '@' :: rest2 => (domSearch rest2).map (fun dm => lrun ++ '@' :: dm)
      | _ => none
  else none

/-- re.findall scanning: try the pattern at every start position from left to
    right and return the first match, i.e. matches[0] in main.py line 122. -/
def findFirstEmail : Option Char → List Char → Option (List Char)
  | _, [] => none
  | prev, c :: cs =>
    match matchAt prev (c :: cs) with
    | some m => some m
    | none => findFirstEmail (some c) cs

/- ### Name extraction (main.py lines 124-131) -/

/-- ASCII lower-casing, modelling str.lower() on the ASCII texts at hand. -/
def pyLower (c : Char) : Char :=
  if 'A' ≤ c ∧ c ≤ 'Z' then Char.ofNat (c.toNat + 32) else c

/-- The whitespace characters stripped by str.strip(). -/
def isPyWS (c : Char) : Bool :=
  c = ' ' || c = '\t' || c = '\n' || c = '\r' || c = '\x0b' || c = '\x0c'

/-- str.strip(): drop whitespace from both ends. -/
def pyStrip (l : List Char) : List Char :=
  ((l.dropWhile isPyWS).reverse.dropWhile isPyWS).reverse

/-- Does `s` start with the pattern `p`. -/
def listStartsWith : List Char → List Char → Bool
  | [], _ => true
  | _ :: _, [] => false
  | p :: ps, c :: cs => p = c && listStartsWith ps cs

/-- str.find(): index of the first occurrence of `pat` in `s`, if any. -/
def strFind (pat : List Char) (s : List Char) : Option Nat :=
  if listStartsWith pat s then some 0
  else
    match s with
    | [] => none
    | _ :: cs => (strFind pat cs).map (· + 1)

/-- str.split applied with separator '\n', as in ticket_content.split('\n'). -/
def pySplitLines : List Char → List (List Char)
  | [] => [[]]
  | c :: cs =>
    if c = '\n' then [] :: pySplitLines cs
    else
      match pySplitLines cs with
      | [] => [[c]]
      | r :: rs => (c :: r) :: rs

/-- The literal marker searched for in each lowered line. -/
def nameMarker : List Char := ['n', 'a', 'm', 'e', ':']

/-- The loop of main.py lines 125-131 without the final strip: on the first
    line whose lower-casing contains "name:", return everything after the
    first occurrence of that marker. -/
def rawAfterMarker : List (List Char) → Option (List Char)
  | [] => none
  | line :: rest =>
    match strFind nameMarker (line.map pyLower) with
    | some idx => some (line.drop (idx + 5))
    | none => rawAfterMarker rest

/-- The extracted name before the fallback: the stripped text after the first
    "name:" marker, if any line carries one. -/
def findNameLine (lines : List (List Char)) : Option (List Char) :=
  (rawAfterMarker lines).map pyStrip

/-- The record returned by extract_customer_info. -/
structure CustomerInfo where
  email : String
  name : String
  deriving Repr, DecidableEq

/-- Email side of extract_customer_info including the `email or fallback`
    truthiness check of main.py line 134. -/
def emailOf (s : List Char) : String :=
  match findFirstEmail none s with
  | some m => if m = [] then "unknown@example.com" else String.mk m
  | none => "unknown@example.com"

/-- Name side of extract_customer_info including the `name or fallback`
    truthiness check of main.py line 135: an empty extracted name is falsy
    and is replaced by the fallback. -/
def nameOf (s : List Char) : String :=
  match findNameLine (pySplitLines s) with
  | some n => if n = [] then "Unknown Customer" else String.mk n
  | none => "Unknown Customer"

/-- extract_customer_info from src/main.py lines 109-136. -/
def extract_customer_info (ticket_content : String) : CustomerInfo :=
  ⟨emailOf ticket_content.data, nameOf ticket_content.data⟩

/- ### Display formatting (src/display/table_display.py) -/

/-- ASCII model of str.lower() on a whole string. -/
def pyLowerStr (s : String) : String := String.mk (s.data.map pyLower)

/-- get_priority_color (table_display.py lines 10-26): the fixed color map
    with "white" as the default for unrecognized values. -/
def get_priority_color (priority : String) : String :=
  let p := pyLowerStr priority
  if p = "critical" then "bright_red"
  else if p = "high" then "red"
  else if p = "medium" then "yellow"
  else if p = "low" then "green"
  else "white"

/-- get_category_color (table_display.py lines 29-45). -/
def get_category_color (category : String) : String :=
  let c := pyLowerStr category
  if c = "billing" then "cyan"
  else if c = "technical" then "magenta"
  else if c = "feature_request" then "blue"
  else if c = "general" then "white"
  else "white"

/-- get_sentiment_color (table_display.py lines 48-63): three tiers keyed on
    the 0.4 and 0.6 thresholds. Floats are modelled as exact rationals. -/
def get_sentiment_color (score : ℚ) : String :=
  if score < 2/5 then "red"
  else if score < 3/5 then "yellow"
  else "green"

/-- get_sentiment_emoji (table_display.py lines 66-81), same thresholds. -/
def get_sentiment_emoji (score : ℚ) : String :=
  if score < 2/5 then "😞"
  else if score < 3/5 then "😐"
  else "😊"

/-- Python int(): truncation toward zero, modelled on exact rationals. -/
def pyInt (q : ℚ) : Int := if 0 ≤ q then Int.floor q else -Int.floor (-q)

/-- format_sentiment (table_display.py lines 84-96): integer percentage,
    a percent sign, a space and the tier emoji. -/
def format_sentiment (score : ℚ) : String :=
  toString (pyInt (score * 100)) ++ "% " ++ get_sentiment_emoji score

/-- Python s[:k]: a take that interprets a negative bound from the end. -/
def pyTake (l : List Char) (k : Int) : List Char :=
  if 0 ≤ k then l.take k.toNat else l.take ((l.length : Int) + k).toNat

/-- truncate_text (table_display.py lines 99-112). The bound is an Int as in
    Python; text[:max_length - 3] slices from the end when max_length < 3. -/
def truncate_text (text : List Char) (max_length : Int) : List Char :=
  if (text.length : Int) ≤ max_length then text
  else pyTake text (max_length - 3) ++ ['.', '.', '.']

/- ### The relational store.
   The SQL statements executed by process_single_ticket (main.py lines
   202-231) and fetch_recent_tickets (table_display.py lines 115-146) are
   modelled over an explicit store state. -/

/-- A customers row: customers(id, email UNIQUE, name). -/
structure Customer where
  id : Nat
  email : String
  name : String
  deriving Repr, DecidableEq

/-- A tickets row: tickets(id, customer_id REFERENCES customers, raw_content,
    summary, category, priority, sentiment_score, created_at DEFAULT now()). -/
structure Ticket where
  id : Nat
  customer_id : Nat
  raw_content : String
  summary : String
  category : String
  priority : String
  sentiment_score : ℚ
  created_at : Nat
  deriving Repr, DecidableEq

/-- The classifier output consumed by the ticket insert. -/
structure Classification where
  summary : String
  category : String
  priority : String
  sentiment_score : ℚ
  deriving Repr, DecidableEq

/-- The store state: both tables plus the id sequences and a logical clock
    supplying created_at defaults. -/
structure DB where
  customers : List Customer
  tickets : List Ticket
  nextCustomerId : Nat
  nextTicketId : Nat
  now : Nat
  deriving Repr, DecidableEq

/-- Modelled from the spec: the closed category enumeration enforced by the
    schema's category_enum (the schema module src/database/connection.py is
    not among the sources at hand; spec sections 3 and 6 fix this set). -/
def categoryEnum : List String := ["billing", "technical", "feature_request", "general"]

/-- Modelled from the spec: the closed priority enumeration enforced by the
    schema's priority_enum (same provenance as categoryEnum). -/
def priorityEnum : List String := ["low", "medium", "high", "critical"]

/-- ON CONFLICT (email) DO UPDATE SET name = EXCLUDED.name: overwrite the
    name of every row carrying the conflicting email. -/
def overwriteName (l : List Customer) (email name : String) : List Customer :=
  l.map (fun c => if c.email = email then ⟨c.id, c.email, name⟩ else c)

/-- The customer UPSERT of main.py lines 206-211: insert (email, name),
    on email conflict overwrite name; RETURNING id either way. -/
def upsertCustomer (db : DB) (email name : String) : DB × Nat :=
  match db.customers.find? (fun c => c.email = email) with
  | some c =>
    (⟨overwriteName db.customers email name, db.tickets,
      db.nextCustomerId, db.nextTicketId, db.now⟩, c.id)
  | none =>
    (⟨db.customers ++ [⟨db.nextCustomerId, email, name⟩], db.tickets,
      db.nextCustomerId + 1, db.nextTicketId, db.now⟩, db.nextCustomerId)

/-- The ticket INSERT of main.py lines 214-228. The casts $4::category_enum
    and $5::priority_enum make the statement fail on out-of-enumeration
    values, in which case no row is written. -/
def insertTicket (db : DB) (cid : Nat) (content : String) (cls : Classification) :
    Option (DB × Nat) :=
  if cls.category ∈ categoryEnum ∧ cls.priority ∈ priorityEnum then
    some (⟨db.customers,
      db.tickets ++ [⟨db.nextTicketId, cid, content, cls.summary, cls.category,
        cls.priority, cls.sentiment_score, db.now⟩],
      db.nextCustomerId, db.nextTicketId + 1, db.now + 1⟩, db.nextTicketId)
  else none

/-- The persistence step of process_single_ticket (main.py lines 202-231):
    upsert then insert inside one conn.transaction() scope, so a failing
    insert rolls the whole state back to the pre-transaction state. -/
def persistTicket (db : DB) (email name content : String) (cls : Classification) :
    DB × Option (Nat × Nat) :=
  let r := upsertCustomer db email name
  match insertTicket r.1 r.2 content cls with
  | some (db2, tid) => (db2, some (r.2, tid))
  | none => (db, none)

/-- Referential integrity: every ticket row references an existing customer. -/
def FKinv (db : DB) : Prop :=
  ∀ t ∈ db.tickets, ∃ c ∈ db.customers, c.id = t.customer_id

instance (db : DB) : Decidable (FKinv db) := by
  unfold FKinv
  infer_instance

/-- Number of customer rows carrying a given email. -/
def countEmail (db : DB) (email : String) : Nat :=
  (db.customers.filter (fun c => c.email = email)).length

/- ### The recency query (table_display.py lines 115-146) -/

/-- One row of the SELECT in fetch_recent_tickets: ticket fields joined with
    the customer's name and email. -/
structure TicketRow where
  id : Nat
  summary : String
  category : String
  priority : String
  sentiment_score : ℚ
  created_at : Nat
  customer_name : String
  customer_email : String
  deriving Repr, DecidableEq

/-- Build a joined row from a ticket and its customer. -/
def mkRow (t : Ticket) (c : Customer) : TicketRow :=
  ⟨t.id, t.summary, t.category, t.priority, t.sentiment_score, t.created_at,
    c.name, c.email⟩

/-- JOIN customers c ON t.customer_id = c.id. -/
def joinRows (db : DB) : List TicketRow :=
  db.tickets.filterMap
    (fun t => (db.customers.find? (fun c => c.id = t.customer_id)).map (mkRow t))

/-- ORDER BY t.created_at DESC: a row comes before another when its
    created_at is at least as large. -/
def recentOrder (a b : TicketRow) : Prop := b.created_at ≤ a.created_at

instance : DecidableRel recentOrder :=
  fun a b => inferInstanceAs (Decidable (b.created_at ≤ a.created_at))

instance : IsTotal TicketRow recentOrder :=
  ⟨fun a b => le_total b.created_at a.created_at⟩

instance : IsTrans TicketRow recentOrder :=
  ⟨fun _ _ _ h1 h2 => le_trans h2 h1⟩

/-- fetch_recent_tickets: join, order by created_at descending, LIMIT. -/
def fetch_recent_tickets (db : DB) (limit : Nat) : List TicketRow :=
  (List.insertionSort recentOrder (joinRows db)).take limit

/- ### Row highlighting in display_recent_tickets
   (table_display.py lines 198-234) -/

/-- is_new = highlight_id and ticket[id] == highlight_id: Python truthiness
    makes both None and 0 short-circuit to a falsy value. -/
def is_new (highlight_id : Option Nat) (tid : Nat) : Bool :=
  match highlight_id with
  | none => false
  | some h => if h = 0 then false else tid = h

/-- row_style = "on dark_green" if is_new else None. -/
def rowStyle (highlight_id : Option Nat) (tid : Nat) : Option String :=
  if is_new highlight_id tid then some "on dark_green" else none

/-- The per-row styles of one display_recent_tickets call, in row order. -/
def rowStyles (highlight_id : Option Nat) (ids : List Nat) : List (Option String) :=
  ids.map (rowStyle highlight_id)
/-- The five built-in sample tickets of src/main.py lines 12-101. -/
def SAMPLE_TICKETS : List String := [
  "\nSubject: Billing Error - Charged Twice This Month!\n\nHello,\n\nI just checked my bank statement and noticed I was charged TWICE for my monthly subscription!\nThis is completely unacceptable. I\x27ve been a loyal customer for over 2 years and this has never\nhappened before.\n\nI need this fixed IMMEDIATELY and I want a full refund for the duplicate charge. This better\nnot happen again or I\x27m canceling my subscription.\n\nEmail: sarah.johnson@email.com\nName: Sarah Johnson\n\nPlease respond ASAP.\n\nFrustrated,\nSarah Johnson\n",
  "\nSubject: Cannot Login to My Account\n\nHi Support Team,\n\nI\x27ve been trying to log into my account for the past hour but keep getting an \"Invalid credentials\"\nerror. I\x27m 100% sure I\x27m using the correct password. I even tried the forgot password link but\nnever received the reset email.\n\nThis is preventing me from accessing important documents I need for work today. Can someone please\nhelp me regain access as soon as possible?\n\nEmail: michael.chen@techcorp.com\nName: Michael Chen\n\nThanks,\nMichael\n",
  "\nSubject: Feature Request - Dark Mode\n\nHello!\n\nI absolutely love your application and use it every day. However, I work late nights and the bright\nwhite interface can be quite straining on my eyes. Would it be possible to add a dark mode option?\n\nI know many users have been asking for this feature on your forums. It would be a great quality of\nlife improvement!\n\nEmail: emma.davis@design.io\nName: Emma Davis\n\nKeep up the great work!\nEmma\n",
  "\nSubject: Question About Pricing Plans\n\nHi there,\n\nI\x27m currently on the Basic plan but considering upgrading to Pro. Could you help me understand the\ndifferences between the two plans? Specifically, I\x27m interested in knowing about storage limits and\nthe number of team members I can add.\n\nAlso, if I upgrade mid-month, will I be charged the full amount or prorated?\n\nEmail: alex.rivera@startup.com\nName: Alex Rivera\n\nThank you!\nAlex\n",
  "\nSubject: Thank You!\n\nDear Support Team,\n\nI just wanted to take a moment to thank you for the excellent customer service I received yesterday.\nJessica helped me resolve my technical issue within minutes and was incredibly patient and professional.\n\nIt\x27s rare to find such dedicated support these days. You have a great team!\n\nEmail: olivia.martinez@email.com\nName: Olivia Martinez\n\nBest regards,\nOlivia\n"
]

/-- random.choice(SAMPLE_TICKETS) at import time (main.py line 106), with the
    randomly drawn index left abstract. -/
def SAMPLE_TICKET (choice : Fin SAMPLE_TICKETS.length) : String :=
  SAMPLE_TICKETS.get choice

/-- get_ticket_input (main.py lines 139-158). `args` is sys.argv[1:]; the
    interactively collected text and the import-time random index are passed
    in as the environment the function reads. -/
def get_ticket_input (args : List String) (interactive : String)
    (choice : Fin SAMPLE_TICKETS.length) : String :=
  match args with
  | [] => SAMPLE_TICKET choice
  | a :: rest =>
    if a = "--interactive" ∨ a = "-i" then interactive
    else if a = "--all" ∨ a = "-a" then "ALL_SAMPLES"
    else String.intercalate " " (a :: rest)

/- ### Helper lemmas -/

/-- Stripping an all-whitespace string yields the empty string. -/
lemma pyStrip_eq_nil {l : List Char} (h : ∀ c ∈ l, isPyWS c = true) :
    pyStrip l = [] := by
  unfold pyStrip
  rw [List.dropWhile_eq_nil_iff.mpr h]
  simp

/- ### C2: the empty extracted name is not kept -/

/-- C2 counterexample: for the one-line input "Name:" the text after the
    marker is empty, yet extract_customer_info returns the fallback
    "Unknown Customer", not the empty string the claim asserts. -/
theorem claim_C2_counterexample :
    rawAfterMarker (pySplitLines ("Name:".data)) = some [] ∧
    (extract_customer_info "Name:").name = "Unknown Customer" ∧
    (extract_customer_info "Name:").name ≠ "" := by
  refine ⟨by decide, by decide, by decide⟩

/-- C2 amended: when the first line containing "name:" (case-insensitively)
    has only whitespace after the marker, the extracted name strips to the
    empty string, which is falsy in `name or 'Unknown Customer'`, so
    extract_customer_info returns the fallback "Unknown Customer". -/
theorem claim_C2 (s raw : List Char)
    (hfind : rawAfterMarker (pySplitLines s) = some raw)
    (hws : ∀ c ∈ raw, isPyWS c = true) :
    nameOf s = "Unknown Customer" := by
  unfold nameOf findNameLine
  rw [hfind]
  simp [pyStrip_eq_nil hws]

/-- C2 witness: the amended theorem applied to the input "Name:  ". -/
theorem claim_C2_witness :
    rawAfterMarker (pySplitLines ("Name:  ".data)) = some (' ' :: ' ' :: []) ∧
    nameOf ("Name:  ".data) = "Unknown Customer" :=
  ⟨by decide, claim_C2 ("Name:  ".data) (' ' :: ' ' :: []) (by decide) (by decide)⟩

/- ### C5: truncation -/

/-- C5 counterexample: with bound 2 the Python slice text[:2-3] counts from
    the end, so truncate_text "hello" 2 = "hell...", of length 7, not 2. -/
theorem claim_C5_counterexample :
    2 < ("hello".data).length ∧
    truncate_text ("hello".data) 2 = "hell...".data ∧
    (truncate_text ("hello".data) 2).length = 7 := by
  refine ⟨by decide, by decide, by decide⟩

/-- C5 amended: for every bound n with 3 ≤ n, truncate_text returns the text
    unchanged when it fits, and otherwise returns a string of length exactly
    n (hence never exceeding n) ending in the three-character "...". For
    n < 3 the length bound fails, as the counterexample shows. -/
theorem claim_C5 (s : List Char) (n : Int) (h3 : 3 ≤ n) :
    ((s.length : Int) ≤ n → truncate_text s n = s) ∧
    (n < (s.length : Int) →
      ((truncate_text s n).length : Int) = n ∧
      ['.', '.', '.'] <:+ truncate_text s n ∧
      ((truncate_text s n).length : Int) ≤ n) := by
  constructor
  · intro hle
    unfold truncate_text
    rw [if_pos hle]
  · intro hgt
    have hnn : (0 : Int) ≤ n - 3 := by omega
    have htr : truncate_text s n = s.take (n - 3).toNat ++ ['.', '.', '.'] := by
      unfold truncate_text pyTake
      rw [if_neg (by omega), if_pos hnn]
    have hlen : (s.take (n - 3).toNat).length = (n - 3).toNat := by
      rw [List.length_take]
      omega
    refine ⟨?_, ?_, ?_⟩
    · rw [htr, List.length_append, hlen]
      simp only [List.length_cons, List.length_nil]
      omega
    · rw [htr]
      exact List.suffix_append _ _
    · rw [htr, List.length_append, hlen]
      simp only [List.length_cons, List.length_nil]
      omega

/-- C5 witness: the amended theorem applied to "hello world" with bound 10. -/
theorem claim_C5_witness :
    (3 : Int) ≤ 10 ∧
    ((((("hello world".data).length : Int) ≤ 10) →
        truncate_text ("hello world".data) 10 = "hello world".data) ∧
      (10 < (("hello world".data).length : Int) →
        ((truncate_text ("hello world".data) 10).length : Int) = 10 ∧
        ['.', '.', '.'] <:+ truncate_text ("hello world".data) 10 ∧
        ((truncate_text ("hello world".data) 10).length : Int) ≤ 10)) :=
  ⟨by decide, claim_C5 ("hello world".data) 10 (by decide)⟩

/- ### C6: sentiment rendering and tiers -/

/-- C6: on scores in [0, 1] format_sentiment renders the floor of score*100
    followed by the tier emoji, and the color and emoji tiers are exactly
    score < 0.4 red/negative, 0.4 ≤ score < 0.6 yellow/neutral and
    0.6 ≤ score green/positive; the four boundary scores behave as claimed. -/
theorem claim_C6 :
    (∀ q : ℚ, 0 ≤ q → q ≤ 1 →
      format_sentiment q =
        toString (Int.floor (q * 100)) ++ "% " ++ get_sentiment_emoji q ∧
      (get_sentiment_color q = "red" ↔ q < 2/5) ∧
      (get_sentiment_color q = "yellow" ↔ 2/5 ≤ q ∧ q < 3/5) ∧
      (get_sentiment_color q = "green" ↔ 3/5 ≤ q) ∧
      (get_sentiment_emoji q = "😞" ↔ q < 2/5) ∧
      (get_sentiment_emoji q = "😐" ↔ 2/5 ≤ q ∧ q < 3/5) ∧
      (get_sentiment_emoji q = "😊" ↔ 3/5 ≤ q)) ∧
    get_sentiment_color (39/100) = "red" ∧
    get_sentiment_color (40/100) = "yellow" ∧
    get_sentiment_color (59/100) = "yellow" ∧
    get_sentiment_color (60/100) = "green" := by
  refine ⟨?_, by norm_num [get_sentiment_color], by norm_num [get_sentiment_color],
    by norm_num [get_sentiment_color], by norm_num [get_sentiment_color]⟩
  intro q h0 _h1
  have hfmt : format_sentiment q =
      toString (Int.floor (q * 100)) ++ "% " ++ get_sentiment_emoji q := by
    unfold format_sentiment pyInt
    rw [if_pos (by positivity)]
  refine ⟨hfmt, ?_, ?_, ?_, ?_, ?_, ?_⟩ <;>
    simp only [get_sentiment_color, get_sentiment_emoji] <;>
    split_ifs with ha hb <;>
    constructor <;>
    intro h <;>
    first
      | rfl
      | exact ha
      | exact ⟨le_of_not_lt ha, hb⟩
      | exact le_of_not_lt hb
      | exact absurd h (by decide)
      | exact absurd h ha
      | exact absurd h.2 hb
      | (exfalso; linarith [h.1])
      | (exfalso; linarith)

/-- C6 witness: the quantified part applied to the score 1/2. -/
theorem claim_C6_witness :
    (0 : ℚ) ≤ 1/2 ∧ (1/2 : ℚ) ≤ 1 ∧
    (format_sentiment (1/2) =
        toString (Int.floor ((1/2 : ℚ) * 100)) ++ "% " ++ get_sentiment_emoji (1/2) ∧
      (get_sentiment_color (1/2) = "red" ↔ (1/2 : ℚ) < 2/5) ∧
      (get_sentiment_color (1/2) = "yellow" ↔ (2/5 : ℚ) ≤ 1/2 ∧ (1/2 : ℚ) < 3/5) ∧
      (get_sentiment_color (1/2) = "green" ↔ (3/5 : ℚ) ≤ 1/2) ∧
      (get_sentiment_emoji (1/2) = "😞" ↔ (1/2 : ℚ) < 2/5) ∧
      (get_sentiment_emoji (1/2) = "😐" ↔ (2/5 : ℚ) ≤ 1/2 ∧ (1/2 : ℚ) < 3/5) ∧
      (get_sentiment_emoji (1/2) = "😊" ↔ (3/5 : ℚ) ≤ 1/2)) :=
  ⟨by norm_num, by norm_num, claim_C6.1 (1/2) (by norm_num) (by norm_num)⟩

/- ### C9: row highlighting -/

/-- A None highlight id is falsy: no row style. -/
lemma rowStyle_none (tid : Nat) : rowStyle none tid = none := rfl

/-- A zero highlight id is falsy in Python: no row style, even for id 0. -/
lemma rowStyle_zero (tid : Nat) : rowStyle (some 0) tid = none := rfl

/-- For a truthy highlight id the style marks exactly the matching id. -/
lemma rowStyle_some (h tid : Nat) (hz : h ≠ 0) :
    rowStyle (some h) tid = if tid = h then some "on dark_green" else none := by
  by_cases ht : tid = h
  · subst ht
    simp [rowStyle, is_new, hz]
  · simp [rowStyle, is_new, hz, ht]

/-- Mapping a constantly-none style over any id list gives all-none styles. -/
lemma map_none_eq_replicate (f : Nat → Option String) (hf : ∀ t, f t = none)
    (ids : List Nat) : ids.map f = List.replicate ids.length none := by
  induction ids with
  | nil => rfl
  | cons a l ih => simp [hf, ih, List.replicate_succ]

/-- On a list without duplicates containing a, exactly one element equals a. -/
lemma countP_eq_one_of_nodup_mem {l : List Nat} {a : Nat}
    (hnd : l.Nodup) (hm : a ∈ l) :
    l.countP (fun t => t = a) = 1 := by
  have h1 : l.count a = 1 := List.count_eq_one_of_mem hnd hm
  rw [← h1]
  unfold List.count
  apply List.countP_congr
  intro x _
  by_cases hxa : x = a
  · simp [hxa]
  · simp [hxa]

/-- C9: a row is highlighted exactly when highlight_id is truthy and equals
    the row's id; highlight_id None highlights nothing, highlight_id 0
    highlights nothing (even when a row has id 0), and a nonzero
    highlight_id present among distinct row ids highlights exactly one row. -/
theorem claim_C9 (ids : List Nat) (h : Nat) :
    rowStyles none ids = List.replicate ids.length none ∧
    rowStyles (some 0) ids = List.replicate ids.length none ∧
    (∀ tid, rowStyle (some h) tid = some "on dark_green" ↔ h ≠ 0 ∧ tid = h) ∧
    (h ≠ 0 → ids.Nodup → h ∈ ids →
      (rowStyles (some h) ids).countP (fun st => st = some "on dark_green") = 1) := by
  refine ⟨?_, ?_, ?_, ?_⟩
  · exact map_none_eq_replicate _ rowStyle_none ids
  · exact map_none_eq_replicate _ rowStyle_zero ids
  · intro tid
    by_cases hz : h = 0
    · subst hz
      simp [rowStyle_zero]
    · rw [rowStyle_some h tid hz]
      by_cases ht : tid = h
      · simp [ht, hz]
      · simp [ht]
  · intro hz hnd hm
    unfold rowStyles
    rw [List.countP_map]
    rw [← countP_eq_one_of_nodup_mem hnd hm]
    apply List.countP_congr
    intro tid _
    simp only [Function.comp_apply]
    rw [rowStyle_some h tid hz]
    by_cases ht : tid = h
    · simp [ht]
    · simp [ht]

/-- C9 witness: the highlighting facts applied to the id list [1, 2, 3] and
    highlight id 2. -/
theorem claim_C9_witness :
    rowStyles none [1, 2, 3] = List.replicate 3 none ∧
    (2 : Nat) ≠ 0 ∧ [1, 2, 3].Nodup ∧ 2 ∈ [1, 2, 3] ∧
    (rowStyles (some 2) [1, 2, 3]).countP (fun st => st = some "on dark_green") = 1 :=
  ⟨(claim_C9 [1, 2, 3] 2).1, by decide, by decide, by decide,
    (claim_C9 [1, 2, 3] 2).2.2.2 (by decide) (by decide) (by decide)⟩

/- ### C10: default input mode -/

/-- C10: with no command-line arguments, get_ticket_input returns the sample
    ticket drawn from SAMPLE_TICKETS at import time — an element of the
    fixed list, not the "ALL_SAMPLES" batch sentinel — and the interactive
    input is never consulted. -/
theorem claim_C10 (interactive : String) (choice : Fin SAMPLE_TICKETS.length) :
    get_ticket_input [] interactive choice = SAMPLE_TICKET choice ∧
    SAMPLE_TICKET choice ∈ SAMPLE_TICKETS ∧
    SAMPLE_TICKET choice ≠ "ALL_SAMPLES" ∧
    (∀ other : String,
      get_ticket_input [] other choice = get_ticket_input [] interactive choice) := by
  refine ⟨rfl, ?_, ?_, fun other => rfl⟩
  · exact List.get_mem SAMPLE_TICKETS choice.1 choice.2
  · fin_cases choice <;> decide

/- ### C8: extraction is total with nonempty results -/

/-- emailOf when no match exists. -/
lemma emailOf_eq_none {s : List Char} (h : findFirstEmail none s = none) :
    emailOf s = "unknown@example.com" := by
  unfold emailOf
  rw [h]

/-- emailOf when a first match exists. -/
lemma emailOf_eq_some {s m : List Char} (h : findFirstEmail none s = some m) :
    emailOf s = if m = [] then "unknown@example.com" else String.mk m := by
  unfold emailOf
  rw [h]

/-- nameOf when no line carries the marker. -/
lemma nameOf_eq_none {s : List Char} (h : rawAfterMarker (pySplitLines s) = none) :
    nameOf s = "Unknown Customer" := by
  unfold nameOf findNameLine
  rw [h]
  rfl

/-- nameOf when some line carries the marker. -/
lemma nameOf_eq_some {s raw : List Char} (h : rawAfterMarker (pySplitLines s) = some raw) :
    nameOf s = if pyStrip raw = [] then "Unknown Customer" else String.mk (pyStrip raw) := by
  unfold nameOf findNameLine
  rw [h]
  rfl

/-- C8: extract_customer_info is a total function of its input that always
    returns a record with nonempty email and name strings, and it degrades
    to the fixed placeholders when extraction finds nothing. -/
theorem claim_C8 (s : String) :
    extract_customer_info s = ⟨emailOf s.data, nameOf s.data⟩ ∧
    (extract_customer_info s).email ≠ "" ∧
    (extract_customer_info s).name ≠ "" ∧
    (findFirstEmail none s.data = none →
      (extract_customer_info s).email = "unknown@example.com") ∧
    (rawAfterMarker (pySplitLines s.data) = none →
      (extract_customer_info s).name = "Unknown Customer") := by
  refine ⟨rfl, ?_, ?_, fun h => emailOf_eq_none h, fun h => nameOf_eq_none h⟩
  · show emailOf s.data ≠ ""
    cases hE : findFirstEmail none s.data with
    | none =>
      rw [emailOf_eq_none hE]
      decide
    | some m =>
      rw [emailOf_eq_some hE]
      by_cases hm : m = []
      · rw [if_pos hm]
        decide
      · rw [if_neg hm]
        intro hcon
        exact hm (congrArg String.data hcon)
  · show nameOf s.data ≠ ""
    cases hN : rawAfterMarker (pySplitLines s.data) with
    | none =>
      rw [nameOf_eq_none hN]
      decide
    | some raw =>
      rw [nameOf_eq_some hN]
      by_cases hm : pyStrip raw = []
      · rw [if_pos hm]
        decide
      · rw [if_neg hm]
        intro hcon
        exact hm (congrArg String.data hcon)

/-- C8 witness: the totality facts applied to the empty input. -/
theorem claim_C8_witness :
    (extract_customer_info "").email ≠ "" ∧
    (extract_customer_info "").name ≠ "" ∧
    (extract_customer_info "").email = "unknown@example.com" ∧
    (extract_customer_info "").name = "Unknown Customer" :=
  ⟨(claim_C8 "").2.1, (claim_C8 "").2.2.1,
    (claim_C8 "").2.2.2.1 rfl, (claim_C8 "").2.2.2.2 rfl⟩

/- ### Store lemmas for C1 and C3 -/

/-- overwriteName leaves every customer's email unchanged. -/
lemma countP_overwriteName (l : List Customer) (e n e' : String) :
    (overwriteName l e n).countP (fun c => c.email = e') =
      l.countP (fun c => c.email = e') := by
  unfold overwriteName
  rw [List.countP_map]
  apply List.countP_congr
  intro c _
  simp only [Function.comp_apply]
  by_cases hc : c.email = e
  · simp [hc]
  · simp [hc]

/-- overwriteName preserves the length of the customers table. -/
lemma overwriteName_length (l : List Customer) (e n : String) :
    (overwriteName l e n).length = l.length :=
  List.length_map l _

/-- Every customer id present before overwriteName is present after it. -/
lemma overwriteName_id_mem (l : List Customer) (e n : String) {c : Customer}
    (hc : c ∈ l) : ∃ c' ∈ overwriteName l e n, c'.id = c.id := by
  refine ⟨if c.email = e then ⟨c.id, c.email, n⟩ else c, ?_, ?_⟩
  · exact List.mem_map_of_mem _ hc
  · by_cases h : c.email = e
    · simp [h]
    · simp [h]

/-- After overwriteName every row carrying the upserted email has the new name. -/
lemma overwriteName_name (l : List Customer) (e n : String) :
    ∀ c ∈ overwriteName l e n, c.email = e → c.name = n := by
  intro c hc he
  unfold overwriteName at hc
  rcases List.mem_map.mp hc with ⟨x, hx, hfx⟩
  by_cases hxe : x.email = e
  · rw [if_pos hxe] at hfx
    rw [← hfx]
  · rw [if_neg hxe] at hfx
    rw [← hfx] at he
    exact absurd he hxe

/-- Case analysis on the upsert: conflict branch and insert branch. -/
lemma upsertCustomer_cases (db : DB) (e n : String) :
    (∃ c, db.customers.find? (fun c => c.email = e) = some c ∧
      upsertCustomer db e n =
        (⟨overwriteName db.customers e n, db.tickets,
          db.nextCustomerId, db.nextTicketId, db.now⟩, c.id)) ∨
    (db.customers.find? (fun c => c.email = e) = none ∧
      upsertCustomer db e n =
        (⟨db.customers ++ [⟨db.nextCustomerId, e, n⟩], db.tickets,
          db.nextCustomerId + 1, db.nextTicketId, db.now⟩, db.nextCustomerId)) := by
  unfold upsertCustomer
  cases hf : db.customers.find? (fun c => c.email = e) with
  | some c => exact Or.inl ⟨c, rfl, rfl⟩
  | none => exact Or.inr ⟨rfl, rfl⟩

/-- Characterization of a successful ticket insert. -/
lemma insertTicket_some {db : DB} {cid : Nat} {content : String}
    {cls : Classification} {db' : DB} {tid : Nat}
    (h : insertTicket db cid content cls = some (db', tid)) :
    db' = ⟨db.customers,
      db.tickets ++ [⟨db.nextTicketId, cid, content, cls.summary, cls.category,
        cls.priority, cls.sentiment_score, db.now⟩],
      db.nextCustomerId, db.nextTicketId + 1, db.now + 1⟩ ∧
    tid = db.nextTicketId ∧
    cls.category ∈ categoryEnum ∧ cls.priority ∈ priorityEnum := by
  unfold insertTicket at h
  split_ifs at h with hok
  · simp only [Option.some.injEq, Prod.mk.injEq] at h
    exact ⟨h.1.symm, h.2.symm, hok.1, hok.2⟩

/-- The transaction as one equation, with the let binding resolved. -/
lemma persistTicket_def (db : DB) (e n ct : String) (cls : Classification) :
    persistTicket db e n ct cls =
      match insertTicket (upsertCustomer db e n).1 (upsertCustomer db e n).2 ct cls with
      | some (db2, tid) => (db2, some ((upsertCustomer db e n).2, tid))
      | none => (db, none) := rfl

/-- Case analysis on one persistence transaction. -/
lemma persistTicket_cases (db : DB) (e n ct : String) (cls : Classification)
    (db' : DB) (r : Option (Nat × Nat))
    (h : persistTicket db e n ct cls = (db', r)) :
    (r = none ∧ db' = db) ∨
    (∃ tid, r = some ((upsertCustomer db e n).2, tid) ∧
      insertTicket (upsertCustomer db e n).1 (upsertCustomer db e n).2 ct cls =
        some (db', tid)) := by
  rw [persistTicket_def] at h
  cases hIns : insertTicket (upsertCustomer db e n).1 (upsertCustomer db e n).2 ct cls with
  | none =>
    rw [hIns] at h
    simp only [Prod.mk.injEq] at h
    exact Or.inl ⟨h.2.symm, h.1.symm⟩
  | some p =>
    cases p with
    | mk db2 tid =>
      rw [hIns] at h
      simp only [Prod.mk.injEq] at h
      exact Or.inr ⟨tid, h.2.symm, by rw [h.1]⟩

/- ### C1: transactional atomicity of the persistence step -/

/-- C1: the customer upsert and ticket insert of process_single_ticket form
    one atomic transaction: a failing insert leaves the store exactly as it
    was (no orphan customer row survives), while a successful call adds
    exactly one ticket row and exactly one customer row — or zero customer
    rows when the email already existed — and the new ticket references an
    existing customer, preserving referential integrity. -/
theorem claim_C1 (db : DB) (email name content : String) (cls : Classification)
    (db2 : DB) (res : Option (Nat × Nat))
    (heq : persistTicket db email name content cls = (db2, res)) :
    (res = none → db2 = db) ∧
    (∀ cid tid, res = some (cid, tid) →
      db2.tickets.length = db.tickets.length + 1 ∧
      ((∃ c ∈ db.customers, c.email = email) →
        db2.customers.length = db.customers.length) ∧
      ((∀ c ∈ db.customers, c.email ≠ email) →
        db2.customers.length = db.customers.length + 1) ∧
      (∃ c ∈ db2.customers, c.id = cid) ∧
      (∃ t ∈ db2.tickets, t.id = tid ∧ t.customer_id = cid) ∧
      (FKinv db → FKinv db2)) := by
  rcases persistTicket_cases db email name content cls db2 res heq with
    ⟨hr, hdb⟩ | ⟨tid0, hr, hIns⟩
  · refine ⟨fun _ => hdb, ?_⟩
    intro cid tid hsome
    rw [hr] at hsome
    exact Option.noConfusion hsome
  · refine ⟨?_, ?_⟩
    · intro hnone
      rw [hnone] at hr
      exact Option.noConfusion hr
    · intro cid tid hsome
      rw [hr] at hsome
      simp only [Option.some.injEq, Prod.mk.injEq] at hsome
      obtain ⟨hcid, htid⟩ := hsome
      rcases insertTicket_some hIns with ⟨hdb2, htid0, _, _⟩
      rcases upsertCustomer_cases db email name with ⟨c, hf, hup⟩ | ⟨hf, hup⟩
      · -- conflict branch: the email already existed
        have hcid' : cid = c.id := by rw [← hcid, hup]
        have hcust : db2.customers = overwriteName db.customers email name := by
          rw [hdb2, hup]
        have htick : db2.tickets =
            db.tickets ++ [⟨db.nextTicketId, (upsertCustomer db email name).2,
              content, cls.summary, cls.category, cls.priority,
              cls.sentiment_score, db.now⟩] := by
          rw [hdb2, hup]
        have hcm : c ∈ db.customers := List.mem_of_find?_eq_some hf
        have hce : c.email = email := by simpa using List.find?_some hf
        refine ⟨?_, ?_, ?_, ?_, ?_, ?_⟩
        · rw [htick, List.length_append]
          rfl
        · intro _
          rw [hcust, overwriteName_length]
        · intro hno
          exact absurd hce (hno c hcm)
        · rw [hcust, hcid']
          exact overwriteName_id_mem db.customers email name hcm
        · refine ⟨⟨db.nextTicketId, (upsertCustomer db email name).2, content,
            cls.summary, cls.category, cls.priority, cls.sentiment_score,
            db.now⟩, ?_, ?_, ?_⟩
          · rw [htick]
            exact List.mem_append_right _ (List.mem_singleton_self _)
          · rw [← htid, htid0, hup]
          · rw [← hcid]
        · intro hfk
          intro t ht
          rw [htick] at ht
          rcases List.mem_append.mp ht with hold | hnew
          · rcases hfk t hold with ⟨c', hc', hid'⟩
            rw [hcust]
            rcases overwriteName_id_mem db.customers email name hc' with ⟨c'', hc'', hid''⟩
            exact ⟨c'', hc'', by rw [hid'', hid']⟩
          · rw [List.mem_singleton.mp hnew]
            rw [hcust]
            rcases overwriteName_id_mem db.customers email name hcm with ⟨c'', hc'', hid''⟩
            refine ⟨c'', hc'', ?_⟩
            show c''.id = (upsertCustomer db email name).2
            rw [hid'', hup]
      · -- insert branch: first sighting of the email
        have hcid' : cid = db.nextCustomerId := by rw [← hcid, hup]
        have hcust : db2.customers =
            db.customers ++ [⟨db.nextCustomerId, email, name⟩] := by
          rw [hdb2, hup]
        have htick : db2.tickets =
            db.tickets ++ [⟨db.nextTicketId, (upsertCustomer db email name).2,
              content, cls.summary, cls.category, cls.priority,
              cls.sentiment_score, db.now⟩] := by
          rw [hdb2, hup]
        refine ⟨?_, ?_, ?_, ?_, ?_, ?_⟩
        · rw [htick, List.length_append]
          rfl
        · intro ⟨c, hcm, hce⟩
          have := (List.find?_eq_none.mp hf) c hcm
          exact absurd (decide_eq_true hce) this
        · intro _
          rw [hcust, List.length_append]
          rfl
        · refine ⟨⟨db.nextCustomerId, email, name⟩, ?_, ?_⟩
          · rw [hcust]
            exact List.mem_append_right _ (List.mem_singleton_self _)
          · rw [hcid']
        · refine ⟨⟨db.nextTicketId, (upsertCustomer db email name).2, content,
            cls.summary, cls.category, cls.priority, cls.sentiment_score,
            db.now⟩, ?_, ?_, ?_⟩
          · rw [htick]
            exact List.mem_append_right _ (List.mem_singleton_self _)
          · rw [← htid, htid0, hup]
          · rw [← hcid]
        · intro hfk
          intro t ht
          rw [htick] at ht
          rcases List.mem_append.mp ht with hold | hnew
          · rcases hfk t hold with ⟨c', hc', hid'⟩
            rw [hcust]
            exact ⟨c', List.mem_append_left _ hc', hid'⟩
          · rw [List.mem_singleton.mp hnew]
            rw [hcust]
            refine ⟨⟨db.nextCustomerId, email, name⟩,
              List.mem_append_right _ (List.mem_singleton_self _), ?_⟩
            show db.nextCustomerId = (upsertCustomer db email name).2
            rw [hup]

/-- C1 witness: a successful persist call on an empty store creates exactly
    one ticket row and one customer row, referenced by the ticket. -/
theorem claim_C1_witness :
    (persistTicket ⟨[], [], 1, 1, 0⟩ "a@b.com" "Ann" "t"
        ⟨"s", "billing", "high", 1/2⟩).2 = some (1, 1) ∧
    (persistTicket ⟨[], [], 1, 1, 0⟩ "a@b.com" "Ann" "t"
        ⟨"s", "billing", "high", 1/2⟩).1.tickets.length =
      (DB.mk [] [] 1 1 0).tickets.length + 1 ∧
    (∃ c ∈ (persistTicket ⟨[], [], 1, 1, 0⟩ "a@b.com" "Ann" "t"
        ⟨"s", "billing", "high", 1/2⟩).1.customers, c.id = 1) := by
  have h := claim_C1 ⟨[], [], 1, 1, 0⟩ "a@b.com" "Ann" "t"
    ⟨"s", "billing", "high", 1/2⟩
    (persistTicket ⟨[], [], 1, 1, 0⟩ "a@b.com" "Ann" "t"
      ⟨"s", "billing", "high", 1/2⟩).1
    (persistTicket ⟨[], [], 1, 1, 0⟩ "a@b.com" "Ann" "t"
      ⟨"s", "billing", "high", 1/2⟩).2 rfl
  exact ⟨by decide, (h.2 1 1 (by decide)).1, (h.2 1 1 (by decide)).2.2.2.1⟩

/- ### C3: the upsert is last-write-wins on the name -/

/-- A successful transaction leaves exactly the upserted customers table. -/
lemma persist_customers {db : DB} {e n ct : String} {cls : Classification}
    {db' : DB} {r : Option (Nat × Nat)}
    (h : persistTicket db e n ct cls = (db', r)) (hs : r.isSome) :
    db'.customers = (upsertCustomer db e n).1.customers := by
  rcases persistTicket_cases db e n ct cls db' r h with ⟨hr, _⟩ | ⟨tid, hr, hIns⟩
  · rw [hr] at hs
    exact absurd hs (by simp)
  · rcases insertTicket_some hIns with ⟨hdb2, _, _, _⟩
    rw [hdb2]

/-- C3: persisting two tickets carrying the same email in sequence leaves
    exactly one customer row for that email — assuming the email-uniqueness
    the schema's UNIQUE constraint provides, i.e. at most one such row to
    begin with — and that row's name is the second (later) value. -/
theorem claim_C3 (db : DB) (e n1 n2 ct1 ct2 : String) (cls1 cls2 : Classification)
    (db1 db2 : DB) (r1 r2 : Option (Nat × Nat))
    (hcount : db.customers.countP (fun c => c.email = e) ≤ 1)
    (h1 : persistTicket db e n1 ct1 cls1 = (db1, r1)) (hs1 : r1.isSome)
    (h2 : persistTicket db1 e n2 ct2 cls2 = (db2, r2)) (hs2 : r2.isSome) :
    db2.customers.countP (fun c => c.email = e) = 1 ∧
    ∀ c ∈ db2.customers, c.email = e → c.name = n2 := by
  have hc1 : db1.customers = (upsertCustomer db e n1).1.customers :=
    persist_customers h1 hs1
  have hc2 : db2.customers = (upsertCustomer db1 e n2).1.customers :=
    persist_customers h2 hs2
  have hcount1 : db1.customers.countP (fun c => c.email = e) = 1 := by
    rw [hc1]
    rcases upsertCustomer_cases db e n1 with ⟨c, hf, hup⟩ | ⟨hf, hup⟩
    · rw [hup]
      show (overwriteName db.customers e n1).countP (fun c => c.email = e) = 1
      rw [countP_overwriteName]
      have hmem : c ∈ db.customers := List.mem_of_find?_eq_some hf
      have hce : c.email = e := by simpa using List.find?_some hf
      have hge : 0 < db.customers.countP (fun c => c.email = e) := by
        apply List.countP_pos_iff.mpr
        refine ⟨c, hmem, ?_⟩
        simp [hce]
      omega
    · rw [hup]
      show (db.customers ++ [(⟨db.nextCustomerId, e, n1⟩ : Customer)]).countP
          (fun c => c.email = e) = 1
      have hzero : db.customers.countP (fun c => c.email = e) = 0 :=
        List.countP_eq_zero.mpr (List.find?_eq_none.mp hf)
      rw [List.countP_append, hzero]
      simp
  have hfind1 : db1.customers.find? (fun c => c.email = e) ≠ none := by
    intro hnone
    have hz : db1.customers.countP (fun c => c.email = e) = 0 :=
      List.countP_eq_zero.mpr (List.find?_eq_none.mp hnone)
    rw [hcount1] at hz
    exact Nat.one_ne_zero hz
  rcases upsertCustomer_cases db1 e n2 with ⟨c, hf2, hup2⟩ | ⟨hf2, hup2⟩
  · have hc2' : db2.customers = overwriteName db1.customers e n2 := by
      rw [hc2, hup2]
    constructor
    · rw [hc2', countP_overwriteName, hcount1]
    · rw [hc2']
      exact overwriteName_name db1.customers e n2
  · exact absurd hf2 hfind1

/-- C3 witness: two persists of a@b.com with names Ann then Bea leave one
    customer row for that email, named Bea. -/
theorem claim_C3_witness :
    (DB.mk [] [] 1 1 0).customers.countP (fun c => c.email = "a@b.com") ≤ 1 ∧
    (persistTicket (persistTicket ⟨[], [], 1, 1, 0⟩ "a@b.com" "Ann" "t1"
        ⟨"s", "billing", "high", 1/2⟩).1 "a@b.com" "Bea" "t2"
        ⟨"s", "general", "low", 3/4⟩).1.customers.countP
      (fun c => c.email = "a@b.com") = 1 ∧
    ∀ c ∈ (persistTicket (persistTicket ⟨[], [], 1, 1, 0⟩ "a@b.com" "Ann" "t1"
        ⟨"s", "billing", "high", 1/2⟩).1 "a@b.com" "Bea" "t2"
        ⟨"s", "general", "low", 3/4⟩).1.customers,
      c.email = "a@b.com" → c.name = "Bea" := by
  have h := claim_C3 ⟨[], [], 1, 1, 0⟩ "a@b.com" "Ann" "Bea" "t1" "t2"
    ⟨"s", "billing", "high", 1/2⟩ ⟨"s", "general", "low", 3/4⟩
    (persistTicket ⟨[], [], 1, 1, 0⟩ "a@b.com" "Ann" "t1"
      ⟨"s", "billing", "high", 1/2⟩).1
    (persistTicket (persistTicket ⟨[], [], 1, 1, 0⟩ "a@b.com" "Ann" "t1"
        ⟨"s", "billing", "high", 1/2⟩).1 "a@b.com" "Bea" "t2"
        ⟨"s", "general", "low", 3/4⟩).1
    (persistTicket ⟨[], [], 1, 1, 0⟩ "a@b.com" "Ann" "t1"
      ⟨"s", "billing", "high", 1/2⟩).2
    (persistTicket (persistTicket ⟨[], [], 1, 1, 0⟩ "a@b.com" "Ann" "t1"
        ⟨"s", "billing", "high", 1/2⟩).1 "a@b.com" "Bea" "t2"
        ⟨"s", "general", "low", 3/4⟩).2
    (by decide) rfl (by decide) rfl (by decide)
  exact ⟨by decide, h.1, h.2⟩

/- ### C7: the recency query -/

/-- A filterMap whose function succeeds everywhere preserves length. -/
lemma length_filterMap_of_isSome {α β : Type} (f : α → Option β) (l : List α)
    (h : ∀ a ∈ l, (f a).isSome) : (l.filterMap f).length = l.length := by
  induction l with
  | nil => rfl
  | cons a l ih =>
    rcases Option.isSome_iff_exists.mp (h a (List.mem_cons_self a l)) with ⟨b, hb⟩
    rw [List.filterMap_cons, hb]
    simp only [List.length_cons]
    rw [ih (fun x hx => h x (List.mem_cons_of_mem a hx))]

/-- Under referential integrity the join loses no ticket. -/
lemma joinRows_length (db : DB) (hfk : FKinv db) :
    (joinRows db).length = db.tickets.length := by
  apply length_filterMap_of_isSome
  intro t ht
  rcases hfk t ht with ⟨c, hc, hid⟩
  cases hfind : db.customers.find? (fun c => c.id = t.customer_id) with
  | some c' => simp [hfind]
  | none =>
    exfalso
    exact absurd (decide_eq_true hid) ((List.find?_eq_none.mp hfind) c hc)

/-- C7: fetch_recent_tickets returns at most `limit` rows — exactly `limit`
    when at least that many tickets exist — each being a ticket joined with
    its customer, ordered by created_at descending, and the empty store
    yields the empty sequence rather than an error. -/
theorem claim_C7 (db : DB) (limit : Nat) (hfk : FKinv db) :
    (fetch_recent_tickets db limit).length = min limit db.tickets.length ∧
    (fetch_recent_tickets db limit).length ≤ limit ∧
    (limit ≤ db.tickets.length → (fetch_recent_tickets db limit).length = limit) ∧
    List.Sorted recentOrder (fetch_recent_tickets db limit) ∧
    (db.tickets = [] → fetch_recent_tickets db limit = []) ∧
    (∀ row ∈ fetch_recent_tickets db limit,
      ∃ t ∈ db.tickets, ∃ c ∈ db.customers,
        c.id = t.customer_id ∧ row = mkRow t c) := by
  have hsortlen : (List.insertionSort recentOrder (joinRows db)).length =
      (joinRows db).length :=
    (List.perm_insertionSort recentOrder (joinRows db)).length_eq
  have hlen : (fetch_recent_tickets db limit).length = min limit db.tickets.length := by
    unfold fetch_recent_tickets
    rw [List.length_take, hsortlen, joinRows_length db hfk]
  refine ⟨hlen, ?_, ?_, ?_, ?_, ?_⟩
  · rw [hlen]
    exact Nat.min_le_left _ _
  · intro hle
    rw [hlen]
    exact Nat.min_eq_left hle
  · exact List.Pairwise.sublist (List.take_sublist _ _)
      (List.sorted_insertionSort recentOrder (joinRows db))
  · intro hnil
    unfold fetch_recent_tickets joinRows
    rw [hnil]
    simp
  · intro row hrow
    have hmem1 : row ∈ List.insertionSort recentOrder (joinRows db) :=
      (List.take_sublist _ _).subset hrow
    have hmem2 : row ∈ joinRows db :=
      (List.perm_insertionSort recentOrder (joinRows db)).subset hmem1
    rcases List.mem_filterMap.mp hmem2 with ⟨t, ht, hf⟩
    rcases Option.map_eq_some'.mp hf with ⟨c, hfind, hrow'⟩
    refine ⟨t, ht, c, List.mem_of_find?_eq_some hfind, ?_, hrow'.symm⟩
    have := List.find?_some hfind
    simpa using this

/-- C7 witness: the query facts applied to a store with two customers and
    three tickets, at limit 2. -/
theorem claim_C7_witness :
    FKinv ⟨[⟨1, "a@b.com", "Ann"⟩, ⟨2, "c@d.com", "Cal"⟩],
      [⟨1, 1, "r1", "s1", "billing", "high", 1/2, 10⟩,
       ⟨2, 2, "r2", "s2", "general", "low", 3/4, 30⟩,
       ⟨3, 1, "r3", "s3", "technical", "medium", 1/4, 20⟩], 3, 4, 40⟩ ∧
    (fetch_recent_tickets ⟨[⟨1, "a@b.com", "Ann"⟩, ⟨2, "c@d.com", "Cal"⟩],
      [⟨1, 1, "r1", "s1", "billing", "high", 1/2, 10⟩,
       ⟨2, 2, "r2", "s2", "general", "low", 3/4, 30⟩,
       ⟨3, 1, "r3", "s3", "technical", "medium", 1/4, 20⟩], 3, 4, 40⟩ 2).length =
      min 2 3 ∧
    List.Sorted recentOrder
      (fetch_recent_tickets ⟨[⟨1, "a@b.com", "Ann"⟩, ⟨2, "c@d.com", "Cal"⟩],
        [⟨1, 1, "r1", "s1", "billing", "high", 1/2, 10⟩,
         ⟨2, 2, "r2", "s2", "general", "low", 3/4, 30⟩,
         ⟨3, 1, "r3", "s3", "technical", "medium", 1/4, 20⟩], 3, 4, 40⟩ 2) := by
  have h := claim_C7 ⟨[⟨1, "a@b.com", "Ann"⟩, ⟨2, "c@d.com", "Cal"⟩],
    [⟨1, 1, "r1", "s1", "billing", "high", 1/2, 10⟩,
     ⟨2, 2, "r2", "s2", "general", "low", 3/4, 30⟩,
     ⟨3, 1, "r3", "s3", "technical", "medium", 1/4, 20⟩], 3, 4, 40⟩ 2 (by decide)
  exact ⟨by decide, h.1, h.2.2.2.1⟩

/- ### C4: email extraction — matcher vs declarative pattern shape -/

/-- One match of the email pattern, stated declaratively: a nonempty run of
    local-part characters, the @, a nonempty run of domain characters, the
    dot, a TLD run of at least two characters, delimited by \b on both
    sides; `m` is the matched text standing at the front of `s`. -/
def EmailShape (prev : Option Char) (s m : List Char) : Prop :=
  ∃ l d t rest,
    m = l ++ '@' :: (d ++ '.' :: t) ∧
    s = m ++ rest ∧
    l ≠ [] ∧ (∀ c ∈ l, isLocalChar c) ∧
    d ≠ [] ∧ (∀ c ∈ d, isDomainChar c) ∧
    2 ≤ t.length ∧ (∀ c ∈ t, isTldChar c) ∧
    boundary2 prev l.head? = true ∧
    boundary2 t.getLast? rest.head? = true

/-- Every list splits into its takeWhile run and the rest. -/
lemma split_at_takeWhile (p : Char → Bool) (l : List Char) :
    l = l.takeWhile p ++ l.drop (l.takeWhile p).length := by
  have h : l.takeWhile p = l.take (l.takeWhile p).length :=
    List.prefix_iff_eq_take.mp (List.takeWhile_prefix p)
  conv_lhs => rw [← List.take_append_drop (l.takeWhile p).length l]
  rw [← h]

/-- dotSplits enumerates exactly the decompositions around a dot. -/
lemma mem_dotSplits (l pre post : List Char) :
    (pre, post) ∈ dotSplits l ↔ l = pre ++ '.' :: post := by
  induction l generalizing pre with
  | nil =>
    simp only [dotSplits, List.not_mem_nil, false_iff]
    intro h
    cases pre <;> simp at h
  | cons c cs ih =>
    simp only [dotSplits, List.mem_append, List.mem_map]
    constructor
    · intro h
      rcases h with ⟨⟨a1, a2⟩, ha, hval⟩ | hif
      · simp only [Prod.mk.injEq] at hval
        obtain ⟨h1, h2⟩ := hval
        subst h1
        subst h2
        rw [(ih a1).mp ha]
        rfl
      · by_cases hc : c = '.'
        · rw [if_pos hc] at hif
          have hmem := List.mem_singleton.mp hif
          simp only [Prod.mk.injEq] at hmem
          obtain ⟨h1, h2⟩ := hmem
          subst h1
          subst h2
          rw [hc]
          rfl
        · rw [if_neg hc] at hif
          exact absurd hif (List.not_mem_nil _)
    · intro h
      cases pre with
      | nil =>
        simp only [List.nil_append, List.cons.injEq] at h
        right
        rw [if_pos h.1, h.2]
        exact List.mem_singleton_self _
      | cons p ps =>
        simp only [List.cons_append, List.cons.injEq] at h
        left
        refine ⟨(ps, post), (ih ps).mpr h.2, ?_⟩
        rw [h.1]

/-- The character immediately after a candidate TLD during the backward
    scan: the passed-in next character when nothing of the run was given
    back yet, else the most recently given-back character. -/
def chainNext (pre : List Char) (nxt : Option Char) : Option Char :=
  match pre with
  | [] => nxt
  | _ :: _ => pre.getLast?

/-- chainNext of a nonempty given-back list is its last element. -/
lemma chainNext_of_ne_nil {pre : List Char} (h : pre ≠ []) (nxt : Option Char) :
    chainNext pre nxt = pre.getLast? := by
  cases pre with
  | nil => exact absurd rfl h
  | cons x xs => rfl

/-- Soundness of the backward TLD scan: a successful result is a suffix
    cut of the run, at least two long, whose trailing boundary holds. -/
lemma tldGoRev_sound : ∀ (rev : List Char) (nxt : Option Char) (t : List Char),
    tldGoRev rev nxt = some t →
    ∃ pre, rev = pre ++ t.reverse ∧ 2 ≤ t.length ∧
      boundary2 t.getLast? (chainNext pre nxt) = true
  | [], _, t, h => by exact Option.noConfusion h
  | c :: rev, nxt, t, h => by
    rw [tldGoRev] at h
    split_ifs at h with hcond
    · have ht : t = (c :: rev).reverse := (Option.some.injEq _ _).mp h.symm
      refine ⟨[], by rw [ht, List.reverse_reverse, List.nil_append], ?_, ?_⟩
      · rw [ht]
        simp only [List.length_reverse, List.length_cons]
        have hx := (Bool.and_eq_true _ _).mp hcond |>.1
        have h1 : 1 ≤ rev.length := of_decide_eq_true hx
        omega
      · have hb := (Bool.and_eq_true _ _).mp hcond |>.2
        rw [ht]
        simp only [List.getLast?_reverse]
        exact hb
    · rcases tldGoRev_sound rev (some c) t h with ⟨pre', hpre', hlen, hb⟩
      refine ⟨c :: pre', by rw [List.cons_append, hpre'], hlen, ?_⟩
      have hchain : chainNext (c :: pre') nxt = chainNext pre' (some c) := by
        cases pre' with
        | nil => rfl
        | cons x xs => rfl
      rw [hchain]
      exact hb

/-- Completeness of the backward TLD scan: if some suffix cut of the run is
    an admissible TLD, the scan succeeds. -/
lemma tldGoRev_complete : ∀ (pre tRev : List Char) (nxt : Option Char),
    2 ≤ tRev.length →
    boundary2 tRev.head? (chainNext pre nxt) = true →
    (tldGoRev (pre ++ tRev) nxt).isSome
  | [], tRev, nxt, hlen, hb => by
    cases tRev with
    | nil => simp at hlen
    | cons c rev =>
      rw [List.nil_append, tldGoRev]
      have hcond : (decide (1 ≤ rev.length) && boundary2 (some c) nxt) = true := by
        apply (Bool.and_eq_true _ _).mpr
        constructor
        · apply decide_eq_true
          simp only [List.length_cons] at hlen
          omega
        · exact hb
      rw [if_pos hcond]
      rfl
  | p :: pre, tRev, nxt, hlen, hb => by
    rw [List.cons_append, tldGoRev]
    split_ifs with hcond
    · rfl
    · apply tldGoRev_complete pre tRev (some p) hlen
      have hchain : chainNext pre (some p) = chainNext (p :: pre) nxt := by
        cases pre with
        | nil => rfl
        | cons x xs => rfl
      rw [hchain]
      exact hb

/-- Soundness of tldSearch: a successful result is an admissible TLD cut at
    the front of the text. -/
lemma tldSearch_sound {after t : List Char} (h : tldSearch after = some t) :
    ∃ rest, after = t ++ rest ∧ 2 ≤ t.length ∧ (∀ c ∈ t, isTldChar c) ∧
      boundary2 t.getLast? rest.head? = true := by
  unfold tldSearch at h
  rcases tldGoRev_sound _ _ _ h with ⟨pre, hpre, hlen, hb⟩
  have htrun : after.takeWhile isTldChar = t ++ pre.reverse := by
    have := congrArg List.reverse hpre
    rw [List.reverse_reverse, List.reverse_append, List.reverse_reverse] at this
    exact this
  have hafter : after = t ++ (pre.reverse ++ after.drop (after.takeWhile isTldChar).length) := by
    conv_lhs => rw [split_at_takeWhile isTldChar after]
    rw [htrun, List.append_assoc]
  refine ⟨pre.reverse ++ after.drop (after.takeWhile isTldChar).length, hafter, hlen, ?_, ?_⟩
  · intro c hc
    apply List.mem_takeWhile_imp (p := isTldChar) (l := after)
    rw [htrun]
    exact List.mem_append_left _ hc
  · cases pre with
    | nil =>
      simpa using hb
    | cons p ps =>
      have h1 : ((p :: ps).reverse ++ after.drop (after.takeWhile isTldChar).length).head?
          = (p :: ps).reverse.head? := by
        rw [List.head?_append]
        cases hrev : (p :: ps).reverse with
        | nil => exact absurd hrev (by simp)
        | cons x xs => rfl
      rw [h1, List.head?_reverse]
      exact hb

/-- Completeness helper: the scan started on the full run succeeds when the
    front cut t is admissible. -/
lemma tldSearch_complete_aux (t w u : List Char) (hlen : 2 ≤ t.length)
    (hb2 : boundary2 t.getLast? ((w ++ u).head?) = true) :
    (tldGoRev (w.reverse ++ t.reverse) u.head?).isSome := by
  apply tldGoRev_complete w.reverse t.reverse u.head? (by simpa using hlen)
  rw [List.head?_reverse]
  cases w with
  | nil =>
    simpa [chainNext] using hb2
  | cons x xs =>
    rw [chainNext_of_ne_nil (by simp) u.head?, List.getLast?_reverse]
    simpa using hb2

/-- Completeness of tldSearch: an admissible TLD cut at the front of the
    text makes the search succeed. -/
lemma tldSearch_complete {t rest : List Char} (hlen : 2 ≤ t.length)
    (hT : ∀ c ∈ t, isTldChar c)
    (hb : boundary2 t.getLast? rest.head? = true) :
    (tldSearch (t ++ rest)).isSome := by
  have htrun : (t ++ rest).takeWhile isTldChar = t ++ rest.takeWhile isTldChar :=
    List.takeWhile_append_of_pos hT
  have hsplit := split_at_takeWhile isTldChar (t ++ rest)
  have h1 : t ++ rest = t ++ (rest.takeWhile isTldChar ++
      (t ++ rest).drop (t ++ rest.takeWhile isTldChar).length) := by
    conv_lhs => rw [hsplit]
    rw [htrun, List.append_assoc]
  have hwu : rest.takeWhile isTldChar ++
      (t ++ rest).drop (t ++ rest.takeWhile isTldChar).length = rest :=
    List.append_cancel_left h1.symm
  unfold tldSearch
  rw [htrun, List.reverse_append]
  exact tldSearch_complete_aux t _ _ hlen (by rw [hwu]; exact hb)

/-- findSome? succeeds when the function succeeds on some member. -/
lemma findSome?_isSome_of_mem {α β : Type} {f : α → Option β} {l : List α} {a : α}
    (ha : a ∈ l) (hb : (f a).isSome) : (l.findSome? f).isSome := by
  by_contra hno
  have hnone := Option.not_isSome_iff_eq_none.mp hno
  rw [List.findSome?_eq_none_iff] at hnone
  rw [hnone a ha] at hb
  exact Bool.noConfusion hb

/-- domSearch with its let bindings resolved. -/
lemma domSearch_def (rest2 : List Char) :
    domSearch rest2 = List.findSome?
      (fun pr =>
        if pr.1 = [] then none
        else (tldSearch (pr.2 ++
            rest2.drop (rest2.takeWhile isDomainChar).length)).map
          (fun t => pr.1 ++ '.' :: t))
      (dotSplits (rest2.takeWhile isDomainChar)) := rfl

/-- Soundness of domSearch: a successful result decomposes as domain run,
    dot and TLD, standing at the front of the text after the @. -/
lemma domSearch_sound {rest2 dm : List Char} (h : domSearch rest2 = some dm) :
    ∃ d t rest, dm = d ++ '.' :: t ∧ rest2 = dm ++ rest ∧
      d ≠ [] ∧ (∀ c ∈ d, isDomainChar c) ∧
      2 ≤ t.length ∧ (∀ c ∈ t, isTldChar c) ∧
      boundary2 t.getLast? rest.head? = true := by
  rw [domSearch_def] at h
  rcases List.exists_of_findSome?_eq_some h with ⟨⟨pre, post⟩, hmem, hf⟩
  have hdrun : rest2.takeWhile isDomainChar = pre ++ '.' :: post :=
    (mem_dotSplits _ _ _).mp hmem
  simp only [] at hf
  split_ifs at hf with hpre
  rcases Option.map_eq_some'.mp hf with ⟨t, htld, hdm⟩
  rcases tldSearch_sound htld with ⟨rest', hsplit', hlen, hT, hbend⟩
  refine ⟨pre, t, rest', hdm.symm, ?_, hpre, ?_, hlen, hT, hbend⟩
  · rw [hdrun] at hsplit'
    rw [← hdm]
    conv_lhs => rw [split_at_takeWhile isDomainChar rest2]
    rw [hdrun]
    simp only [List.append_assoc, List.cons_append]
    rw [hsplit']
  · intro c hc
    apply List.mem_takeWhile_imp (p := isDomainChar) (l := rest2)
    rw [hdrun]
    exact List.mem_append_left _ hc

/-- Completeness of domSearch: a declarative decomposition after the @
    makes the search succeed. -/
lemma domSearch_complete {d t rest : List Char} (hd : d ≠ [])
    (hD : ∀ c ∈ d, isDomainChar c) (hlen : 2 ≤ t.length)
    (hT : ∀ c ∈ t, isTldChar c)
    (hb : boundary2 t.getLast? rest.head? = true) :
    (domSearch (d ++ '.' :: (t ++ rest))).isSome := by
  rw [domSearch_def]
  have hdrun : (d ++ '.' :: (t ++ rest)).takeWhile isDomainChar
      = d ++ '.' :: (t ++ rest).takeWhile isDomainChar := by
    rw [List.takeWhile_append_of_pos hD, List.takeWhile_cons, if_pos (by decide)]
  have hsplit := split_at_takeWhile isDomainChar (d ++ '.' :: (t ++ rest))
  have h1 : d ++ '.' :: (t ++ rest) = d ++ '.' :: ((t ++ rest).takeWhile isDomainChar ++
      (d ++ '.' :: (t ++ rest)).drop
        ((d ++ '.' :: (t ++ rest)).takeWhile isDomainChar).length) := by
    conv_lhs => rw [hsplit]
    rw [hdrun]
    simp only [List.append_assoc, List.cons_append]
  have hvu : (t ++ rest).takeWhile isDomainChar ++
      (d ++ '.' :: (t ++ rest)).drop
        ((d ++ '.' :: (t ++ rest)).takeWhile isDomainChar).length = t ++ rest := by
    exact ((List.cons.injEq _ _ _ _).mp (List.append_cancel_left h1)).2.symm
  apply findSome?_isSome_of_mem (a := (d, (t ++ rest).takeWhile isDomainChar))
  · apply (mem_dotSplits _ _ _).mpr
    rw [hdrun]
  · show (if d = [] then none
      else (tldSearch ((t ++ rest).takeWhile isDomainChar ++
          (d ++ '.' :: (t ++ rest)).drop
            ((d ++ '.' :: (t ++ rest)).takeWhile isDomainChar).length)).map
        (fun tt => d ++ '.' :: tt)).isSome
    rw [if_neg hd, hvu, Option.isSome_map']
    exact tldSearch_complete hlen hT hb

/-- matchAt with its let binding resolved. -/
lemma matchAt_def (prev : Option Char) (s : List Char) :
    matchAt prev s =
      if boundary2 prev s.head? then
        if s.takeWhile isLocalChar = [] then none
        else
          match s.drop (s.takeWhile isLocalChar).length with
          | '@' :: rest2 =>
            (domSearch rest2).map (fun dm => s.takeWhile isLocalChar ++ '@' :: dm)
          | _ => none
      else none := rfl

/-- Soundness of the anchored matcher: a successful match has the
    declarative shape of the email pattern. -/
lemma matchAt_sound {prev : Option Char} {s m : List Char}
    (h : matchAt prev s = some m) : EmailShape prev s m := by
  rw [matchAt_def] at h
  split_ifs at h with hb0 hl0
  split at h
  · rename_i rest2 heq
    rcases Option.map_eq_some'.mp h with ⟨dm, hdom, hdmm⟩
    rcases domSearch_sound hdom with
      ⟨d, t, rest, hdm_eq, hrest2, hd, hD, hlen, hT, hbend⟩
    refine ⟨s.takeWhile isLocalChar, d, t, rest, ?_, ?_, hl0,
      fun c hc => List.mem_takeWhile_imp hc, hd, hD, hlen, hT, ?_, hbend⟩
    · rw [← hdmm, hdm_eq]
    · conv_lhs => rw [split_at_takeWhile isLocalChar s]
      rw [heq, hrest2, ← hdmm]
      simp only [List.append_assoc, List.cons_append]
    · have hshead : s.head? = (s.takeWhile isLocalChar).head? := by
        conv_lhs => rw [split_at_takeWhile isLocalChar s]
        rw [List.head?_append]
        cases hlw : s.takeWhile isLocalChar with
        | nil => exact absurd hlw hl0
        | cons a as => rfl
      rw [← hshead]
      exact hb0
  · exact absurd h (by simp)

/-- Completeness of the anchored matcher: the declarative shape at the
    front of `s` makes the matcher succeed. -/
lemma matchAt_complete {prev : Option Char} {s m : List Char}
    (hE : EmailShape prev s m) : (matchAt prev s).isSome := by
  obtain ⟨l, d, t, rest, hm, hs, hl, hL, hd, hD, hlen, hT, hb1, hb2⟩ := hE
  have hs' : s = l ++ '@' :: (d ++ '.' :: (t ++ rest)) := by
    rw [hs, hm]
    simp only [List.append_assoc, List.cons_append]
  have hhead : s.head? = l.head? := by
    rw [hs']
    cases l with
    | nil => exact absurd rfl hl
    | cons a as => rfl
  have hlrun : s.takeWhile isLocalChar = l := by
    rw [hs', List.takeWhile_append_of_pos hL, List.takeWhile_cons,
      if_neg (by decide)]
    simp
  have hdrop : s.drop l.length = '@' :: (d ++ '.' :: (t ++ rest)) := by
    rw [hs']
    exact List.drop_left l _
  rw [matchAt_def, hhead, if_pos hb1, hlrun, if_neg hl, hdrop]
  show ((domSearch (d ++ '.' :: (t ++ rest))).map (fun dm => l ++ '@' :: dm)).isSome
  rw [Option.isSome_map']
  exact domSearch_complete hd hD hlen hT hb2

/-- No match ever starts at the empty suffix. -/
lemma matchAt_nil (prev : Option Char) : matchAt prev [] = none := by
  simp [matchAt_def]

/-- The character standing just before position i, seen from a scan that
    entered the suffix `s` with previous character `prev`. -/
def prevAtAux (prev : Option Char) (s : List Char) (i : Nat) : Option Char :=
  if i = 0 then prev else s.get? (i - 1)

/-- Stepping the scan by one position. -/
lemma prevAtAux_cons (prev : Option Char) (c : Char) (cs : List Char) (j : Nat) :
    prevAtAux prev (c :: cs) (j + 1) = prevAtAux (some c) cs j := by
  cases j with
  | zero => rfl
  | succ k => rfl

/-- A failed scan means the matcher fails at every position. -/
lemma findFirstEmail_none_all : ∀ (s : List Char) (prev : Option Char),
    findFirstEmail prev s = none →
    ∀ i, matchAt (prevAtAux prev s i) (s.drop i) = none
  | [], _, _, i => by
    rw [List.drop_nil]
    exact matchAt_nil _
  | c :: cs, prev, h, i => by
    rw [findFirstEmail] at h
    cases hM : matchAt prev (c :: cs) with
    | some m =>
      rw [hM] at h
      exact absurd h (by simp)
    | none =>
      rw [hM] at h
      cases i with
      | zero => exact hM
      | succ j =>
        rw [List.drop_succ_cons, prevAtAux_cons]
        exact findFirstEmail_none_all cs (some c) h j

/-- A successful scan returns the match at the leftmost matching position. -/
lemma findFirstEmail_some_leftmost : ∀ (s : List Char) (prev : Option Char)
    (m : List Char), findFirstEmail prev s = some m →
    ∃ i, matchAt (prevAtAux prev s i) (s.drop i) = some m ∧
      ∀ j, j < i → matchAt (prevAtAux prev s j) (s.drop j) = none
  | [], _, m, h => by exact Option.noConfusion h
  | c :: cs, prev, m, h => by
    rw [findFirstEmail] at h
    cases hM : matchAt prev (c :: cs) with
    | some m' =>
      rw [hM] at h
      have hmm : m' = m := by simpa using h
      refine ⟨0, ?_, ?_⟩
      · rw [← hmm]
        exact hM
      · intro j hj
        exact absurd hj (Nat.not_lt_zero j)
    | none =>
      rw [hM] at h
      rcases findFirstEmail_some_leftmost cs (some c) m h with ⟨i, h1, h2⟩
      refine ⟨i + 1, ?_, ?_⟩
      · rw [List.drop_succ_cons, prevAtAux_cons]
        exact h1
      · intro j hj
        cases j with
        | zero => exact hM
        | succ k =>
          rw [List.drop_succ_cons, prevAtAux_cons]
          exact h2 k (Nat.lt_of_succ_lt_succ hj)

/-- The email pattern matches at position i of the text. -/
def declMatchPos (s : List Char) (i : Nat) : Prop :=
  ∃ m, EmailShape (prevAtAux none s i) (s.drop i) m

/-- Follows the spec's words for C4: the text contains a well-formed email
    address — a nonempty local part, an @, and a domain with at least one
    dot — as a substring somewhere inside it. -/
def spec_containsWellFormedEmail (s : List Char) : Prop :=
  ∃ pre l d post, s = pre ++ (l ++ '@' :: d) ++ post ∧
    l ≠ [] ∧ '@' ∉ l ∧ '@' ∉ d ∧ '.' ∈ d

/-- C4 counterexample: "a@b.c" contains a well-formed email address in the
    claim's sense (domain "b.c" has a dot), yet extract_customer_info
    returns the fallback "unknown@example.com" — which is not even a
    substring of the text, being longer than it — because the code's
    pattern wants a TLD of at least two letters. -/
theorem claim_C4_counterexample :
    spec_containsWellFormedEmail ("a@b.c".data) ∧
    emailOf ("a@b.c".data) = "unknown@example.com" ∧
    ("a@b.c".data).length < ("unknown@example.com".data).length := by
  refine ⟨⟨[], ['a'], ['b', '.', 'c'], [], by decide, by decide, by decide,
    by decide, by decide⟩, by decide, by decide⟩

/-- C4 amended: extract_customer_info returns the regex-shaped email — a
    nonempty [A-Za-z0-9._%+-] local part, @, a nonempty [A-Za-z0-9.-]
    domain run, a dot and a TLD of at least two [A-Z|a-z] characters,
    delimited by word boundaries — found at the leftmost matching position,
    scanning top to bottom; when no position matches, it returns the fixed
    fallback "unknown@example.com". -/
theorem claim_C4 (s : List Char) :
    ((∀ i, ¬ declMatchPos s i) → emailOf s = "unknown@example.com") ∧
    (∀ i, declMatchPos s i → (∀ j, j < i → ¬ declMatchPos s j) →
      ∃ m, EmailShape (prevAtAux none s i) (s.drop i) m ∧
        emailOf s = String.mk m) := by
  constructor
  · intro hno
    cases hF : findFirstEmail none s with
    | none => exact emailOf_eq_none hF
    | some m =>
      rcases findFirstEmail_some_leftmost s none m hF with ⟨i, h1, _⟩
      exact absurd ⟨m, matchAt_sound h1⟩ (hno i)
  · intro i hdecl hmin
    obtain ⟨m0, hE⟩ := hdecl
    have hiS : (matchAt (prevAtAux none s i) (s.drop i)).isSome :=
      matchAt_complete hE
    cases hF : findFirstEmail none s with
    | none =>
      rw [findFirstEmail_none_all s none hF i] at hiS
      exact absurd hiS (by simp)
    | some m =>
      rcases findFirstEmail_some_leftmost s none m hF with ⟨i0, h1, h2⟩
      have hii : i0 = i := by
        rcases Nat.lt_trichotomy i0 i with hlt | heq | hgt
        · exact absurd ⟨m, matchAt_sound h1⟩ (hmin i0 hlt)
        · exact heq
        · rw [h2 i hgt] at hiS
          exact absurd hiS (by simp)
      rw [hii] at h1
      have hshape := matchAt_sound h1
      have hm_ne : m ≠ [] := by
        obtain ⟨l, d, t, rest, hm, _, hl, _⟩ := hshape
        rw [hm]
        cases l with
        | nil => exact absurd rfl hl
        | cons a as => simp
      rw [emailOf_eq_some hF, if_neg hm_ne]
      exact ⟨m, hshape, rfl⟩

/-- C4 witness: the amended theorem applied to the text "a@b.cd" where a
    regex-shaped match stands at position 0. -/
theorem claim_C4_witness :
    declMatchPos ("a@b.cd".data) 0 ∧
    (∃ m, EmailShape (prevAtAux none ("a@b.cd".data) 0) (("a@b.cd".data).drop 0) m ∧
      emailOf ("a@b.cd".data) = String.mk m) := by
  have hdecl : declMatchPos ("a@b.cd".data) 0 :=
    ⟨"a@b.cd".data, ['a'], ['b'], ['c', 'd'], [], by decide, by decide,
      by decide, by decide, by decide, by decide, by decide, by decide,
      by decide, by decide⟩
  exact ⟨hdecl, (claim_C4 ("a@b.cd".data)).2 0 hdecl
    (fun j hj => absurd hj (Nat.not_lt_zero j))⟩
